import Mathlib

/-!
Verification of the kc-aeads transform stack (UtC, HkdfHte, MacHte, CX-PRF)
against its natural-language specification.

Bytes are modelled as `Nat` values and byte buffers as `List Nat`.  External
collaborators (the AES block cipher, the patched AES-GCM with clobbering
decrypt, HKDF and generic MACs) are abstract function records; their documented
contracts appear as hypotheses of the theorems.  Rust panics and `unwrap`
failures are modelled as `none`.
-/

/-- A block-cipher configuration: `KeySize` and `BlockSize` in bytes
(the `typenum` type-level constants of the Rust source). -/
structure CipherCfg where
  keySize : Nat
  blockSize : Nat
deriving DecidableEq, Repr

/-- Models `dst[off .. off+src.len].copy_from_slice(src)` on a byte buffer. -/
def setSlice (buf : List Nat) (off : Nat) (xs : List Nat) : List Nat :=
  buf.take off ++ xs ++ buf.drop (off + xs.length)

/-- `num_com_blocks = Self::ComSize::USIZE / Ciph::BlockSize::USIZE`, where
`ComSize` is `DoubleKeySize` (`AddLength` of the key size with itself);
`src/cx_prf.rs` line 119. -/
def cxNumComBlocks (c : CipherCfg) : Nat := (c.keySize + c.keySize) / c.blockSize

/-- `num_mask_blocks = Self::MaskSize::USIZE / Ciph::BlockSize::USIZE` with
`MaskSize = Ciph::KeySize`; `src/cx_prf.rs` line 120. -/
def cxNumMaskBlocks (c : CipherCfg) : Nat := c.keySize / c.blockSize

/-- `num_total_blocks = num_com_blocks + num_mask_blocks`; `src/cx_prf.rs` line 121. -/
def cxNumTotalBlocks (c : CipherCfg) : Nat := cxNumComBlocks c + cxNumMaskBlocks c

/-- The loop body of `src/cx_prf.rs` lines 134-137: start from a zeroed block
(`Block::<Ciph>::default()`), copy the message into `block[..MsgSize]`, then
set `block[BlockSize-1] = (i + 1) as u8`. -/
def cxMakeBlock (b : Nat) (msg : List Nat) (i : Nat) : List Nat :=
  setSlice (setSlice (List.replicate b 0) 0 msg) (b - 1) [(i + 1) % 256]

/-- The padded plaintext blocks `X_1 .. X_{num_total_blocks}` built by the loop
in `src/cx_prf.rs` lines 134-137 (0-indexed counter, block byte `i + 1`). -/
def cxBlocks (c : CipherCfg) (msg : List Nat) : List (List Nat) :=
  (List.range (cxNumTotalBlocks c)).map (cxMakeBlock c.blockSize msg)

/-- XOR of two blocks, `zip(..).for_each(|(c, m)| *c ^= m)`
(`src/cx_prf.rs` lines 146-149); `zipWith` matches Rust `zip` truncation. -/
def xorBlock (v x : List Nat) : List Nat := List.zipWith Nat.xor v x

/-- `blocks[0] <- blocks[0] ^ block0` applied to the encrypted block list
(`src/cx_prf.rs` lines 139-149): only the first block is changed. -/
def xorHead (vs : List (List Nat)) (x : List Nat) : List (List Nat) :=
  match vs with
  | [] => []
  | v :: rest => xorBlock v x :: rest

/-- The unguarded core of `CxPrf::prf` (`src/cx_prf.rs` lines 131-170):
build the padded blocks, encrypt them all with `E`, XOR the saved plaintext
block 0 into ciphertext block 0, then flatten the first `num_com_blocks`
blocks into `com` and the next `num_mask_blocks` blocks into `mask`. -/
def cxCore (c : CipherCfg) (E : List Nat → List Nat) (msg : List Nat) :
    List Nat × List Nat :=
  (((xorHead ((cxBlocks c msg).map E) ((cxBlocks c msg).headD [])).take
      (cxNumComBlocks c)).flatten,
   (((xorHead ((cxBlocks c msg).map E) ((cxBlocks c msg).headD [])).drop
      (cxNumComBlocks c)).take (cxNumMaskBlocks c)).flatten)

/-- `CxPrf::prf` (`src/cx_prf.rs` lines 110-171), with every Rust panic
modelled as `none`:
* `&mut block_buf[..num_total_blocks]` panics when more than the 6 scratch
  blocks are requested;
* `block[..MsgSize].copy_from_slice(msg)` / `block[BlockSize - 1]` panic when
  the message does not fit in a block or the block size is zero;
* `blocks[0]` panics when there are no blocks at all;
* the two `from_exact_iter(..).unwrap()` calls panic unless the flattened
  blocks have exactly `ComSize = 2 * KeySize` resp. `MaskSize = KeySize` bytes. -/
def cxPrf (c : CipherCfg) (E : List Nat → List Nat) (msg : List Nat) :
    Option (List Nat × List Nat) :=
  if 6 < cxNumTotalBlocks c then none
  else if c.blockSize = 0 ∨ c.blockSize < msg.length then none
  else if cxNumTotalBlocks c = 0 then none
  else if (cxCore c E msg).1.length = c.keySize + c.keySize ∧
          (cxCore c E msg).2.length = c.keySize then
    some (cxCore c E msg)
  else none

/-- `<CxPrf as KeyInit>::new` (`src/cx_prf.rs` lines 61-74): construction only
keys the underlying cipher (`Ciph::new(key)`); there is no validation and no
failure path.  `aesFam` is the block-cipher family, `aesFam key` the keyed
cipher instance. -/
def cxPrfNew (aesFam : List Nat → List Nat → List Nat) (key : List Nat) :
    List Nat → List Nat :=
  aesFam key

/-- The reference padded block of spec §4.2 step 1: `X_i = M` followed by zero
bytes up to `BlockSize - 1` bytes, then the single byte `i` last. -/
def specCxBlock (b : Nat) (msg : List Nat) (i : Nat) : List Nat :=
  msg ++ List.replicate (b - 1 - msg.length) 0 ++ [i]

/-- The reference block sequence `X_1, ..., X_{num_com_blocks+num_mask_blocks}`
of spec §4.2 step 1 (`i` running from 1). -/
def specCxBlocks (c : CipherCfg) (msg : List Nat) : List (List Nat) :=
  (List.range (cxNumTotalBlocks c)).map (fun j => specCxBlock c.blockSize msg (j + 1))

/-- The reference CX-PRF computation of spec §4.2 steps 2-4: encrypt every
block, set `V_1 <- V_1 XOR X_1`, and return
`(V_1 || .. || V_ncb, V_{ncb+1} || .. || V_{ncb+nmb})`. -/
def specCxPrf (c : CipherCfg) (E : List Nat → List Nat) (msg : List Nat) :
    List Nat × List Nat :=
  (((xorHead ((specCxBlocks c msg).map E) ((specCxBlocks c msg).headD [])).take
      (cxNumComBlocks c)).flatten,
   (((xorHead ((specCxBlocks c msg).map E) ((specCxBlocks c msg).headD [])).drop
      (cxNumComBlocks c)).take (cxNumMaskBlocks c)).flatten)

/-- `type AesGcmNonceSize = U12` (`src/utc_transform.rs` line 12). -/
def AesGcmNonceSize : Nat := 12

/-- `type AesGcmTagSize = U16` (`src/utc_transform.rs` line 13). -/
def AesGcmTagSize : Nat := 16

/-- `UtcTagSize = CxComSize + AesGcmTagSize`, laid out by `pack_tag` as the GCM
tag followed by the commitment (`src/utc_transform.rs` lines 17-18, 56-59). -/
def utcTagSize (c : CipherCfg) : Nat := AesGcmTagSize + (c.keySize + c.keySize)

/-- The patched `aes_gcm::AesGcm` collaborator (external crate), keyed per
call.  `encrypt key nonce aad pt` returns `(ciphertext, tag)`;
`clobberingDecrypt key nonce aad buffer tag` writes the candidate plaintext
into the buffer and returns `(buffer, tag_matched)`; `unclobber key nonce
buffer tag` re-encrypts the buffer in place.  Its documented contracts appear
as theorem hypotheses.  The crate's length-overflow errors are not modelled. -/
structure GcmModel where
  encrypt : List Nat → List Nat → List Nat → List Nat → List Nat × List Nat
  clobberingDecrypt : List Nat → List Nat → List Nat → List Nat → List Nat → List Nat × Bool
  unclobber : List Nat → List Nat → List Nat → List Nat → List Nat

/-- `pack_tag` (`src/utc_transform.rs` lines 45-62): zero a buffer of
`UtcTagSize` bytes, copy the GCM tag into `[..AesGcmTagSize]` and the PRF
commitment into `[AesGcmTagSize..]`. -/
def pack_tag (c : CipherCfg) (gcm_tag prf_com : List Nat) : List Nat :=
  setSlice (setSlice (List.replicate (utcTagSize c) 0) 0 gcm_tag) AesGcmTagSize prf_com

/-- `unpack_tag` (`src/utc_transform.rs` lines 64-81): split the packed tag at
the fixed offset `AesGcmTagSize` into `(gcm_tag, prf_com)`. -/
def unpack_tag (utc_tag : List Nat) : List Nat × List Nat :=
  (utc_tag.take AesGcmTagSize, utc_tag.drop AesGcmTagSize)

/-- `UtcOverAesGcm::encrypt_in_place_detached` (`src/utc_transform.rs` lines
104-119): run the CX PRF on the nonce, encrypt under the mask with the base
GCM, and return the ciphertext with the packed tag `gcm_tag || prf_com`.
`aes key` is the cipher instance held by the transform (`Ciph::new(key)`). -/
def utcEncrypt (c : CipherCfg) (aes : List Nat → List Nat → List Nat)
    (G : GcmModel) (key nonce aad buffer : List Nat) :
    Option (List Nat × List Nat) :=
  match cxPrf c (aes key) nonce with
  | none => none
  | some (prf_com, prf_mask) =>
    some ((G.encrypt prf_mask nonce aad buffer).1,
          pack_tag c (G.encrypt prf_mask nonce aad buffer).2 prf_com)

/-- `UtcOverAesGcm::decrypt_in_place_detached` (`src/utc_transform.rs` lines
121-151): unpack the tag, re-run the PRF, clobbering-decrypt under the mask,
check `decryption_success & com_matches`; on failure unclobber the buffer and
return the single opaque `aead::Error` (modelled as the `false` result). -/
def utcDecrypt (c : CipherCfg) (aes : List Nat → List Nat → List Nat)
    (G : GcmModel) (key nonce aad buffer tag : List Nat) :
    Option (Bool × List Nat) :=
  match cxPrf c (aes key) nonce with
  | none => none
  | some (expected_com, prf_mask) =>
    if (G.clobberingDecrypt prf_mask nonce aad buffer (unpack_tag tag).1).2 &&
       ((unpack_tag tag).2 == expected_com) then
      some (true, (G.clobberingDecrypt prf_mask nonce aad buffer (unpack_tag tag).1).1)
    else
      some (false,
        G.unclobber prf_mask nonce
          (G.clobberingDecrypt prf_mask nonce aad buffer (unpack_tag tag).1).1
          (unpack_tag tag).1)

/-- An AEAD in the shape of the `aead` crate's in-place detached interface.
`encrypt key nonce aad pt = some (ct, tag)`; `decrypt` returns
`some (true, pt)` on success, `some (false, buf)` on `Err(aead::Error)` with
`buf` the buffer contents at return, and `none` on a panic. -/
structure AeadModel where
  keySize : Nat
  encrypt : List Nat → List Nat → List Nat → List Nat → Option (List Nat × List Nat)
  decrypt : List Nat → List Nat → List Nat → List Nat → List Nat → Option (Bool × List Nat)

/-- `UtcOverAesGcm` as an AEAD: `type KeySize = Ciph::KeySize`
(`src/utc_transform.rs` line 90). -/
def utcAead (c : CipherCfg) (aes : List Nat → List Nat → List Nat)
    (G : GcmModel) : AeadModel :=
  { keySize := c.keySize
    encrypt := utcEncrypt c aes G
    decrypt := utcDecrypt c aes G }

/-- `decrypt(encrypt(k, n, aad, m), k, n, aad) == m` for one AEAD instance. -/
def aeadRoundtrip (A : AeadModel) (key nonce aad pt : List Nat) : Prop :=
  ∃ ct tag, A.encrypt key nonce aad pt = some (ct, tag) ∧
    A.decrypt key nonce aad ct tag = some (true, pt)

/-- The `hkdf::SimpleHkdf` collaborator (external crate).  `extract salt ikm`
returns the pseudorandom key; `expand prk info len` and
`expandMulti prk info_components len` fill an output buffer of `len` bytes,
erroring (hence `none`, surfaced by the source's `.expect`) only when `len`
exceeds `255 * HashLen`.  The crate documents `expand_multi_info` as `expand`
applied to the concatenation of the info components; that contract is the
`hjoin` hypothesis of the theorems below. -/
structure HkdfModel where
  extract : List Nat → List Nat → List Nat
  expand : List Nat → List Nat → Nat → Option (List Nat)
  expandMulti : List Nat → List (List Nat) → Nat → Option (List Nat)

/-- `EXTRACT_DOMAIN_SEP = b"HkdfHte"` (`src/hte_transform.rs` line 36). -/
def hkdfHteSalt : List Nat := [72, 107, 100, 102, 72, 116, 101]

/-- `HkdfHte::new` (`src/hte_transform.rs` lines 67-72): store
`SimpleHkdf::extract(Some(b"HkdfHte"), key)`, i.e. the prk. -/
def hkdfHteNew (Hk : HkdfModel) (key : List Nat) : List Nat :=
  Hk.extract hkdfHteSalt key

/-- `HkdfHte::encrypt_in_place_detached` (`src/hte_transform.rs` lines
85-101): derive `enc_key` by `expand_multi_info(&[nonce, associated_data])`
into a `Key::<A>` buffer, then call the inner AEAD with the same nonce and
empty associated data. -/
def hkdfHteEncrypt (Hk : HkdfModel) (A : AeadModel)
    (prk nonce aad buffer : List Nat) : Option (List Nat × List Nat) :=
  match Hk.expandMulti prk [nonce, aad] A.keySize with
  | none => none
  | some enc_key => A.encrypt enc_key nonce [] buffer

/-- `HkdfHte::decrypt_in_place_detached` (`src/hte_transform.rs` lines
108-125): same key derivation, inner decrypt with empty associated data. -/
def hkdfHteDecrypt (Hk : HkdfModel) (A : AeadModel)
    (prk nonce aad buffer tag : List Nat) : Option (Bool × List Nat) :=
  match Hk.expandMulti prk [nonce, aad] A.keySize with
  | none => none
  | some enc_key => A.decrypt enc_key nonce [] buffer tag

/-- `HkdfHte` as an AEAD: `type KeySize = A::KeySize`
(`src/hte_transform.rs` line 65). -/
def hkdfHteAead (Hk : HkdfModel) (A : AeadModel) : AeadModel :=
  { keySize := A.keySize
    encrypt := fun key n aad pt => hkdfHteEncrypt Hk A (hkdfHteNew Hk key) n aad pt
    decrypt := fun key n aad ct tag => hkdfHteDecrypt Hk A (hkdfHteNew Hk key) n aad ct tag }

/-- The generic MAC collaborator (e.g. `SimpleHmac`).  `newFromSlice` is
`KeyInit::new_from_slice` and may reject the key (`none`, which the source
turns into the panic `expect("invalid MAC key length")`); `update` and
`finalize` follow the `digest::Mac` streaming interface, whose documented
contract `update st xs ++ update ys = update st (xs ++ ys)` is the `hupd`
hypothesis of the theorems below.  MAC states are modelled as byte lists. -/
structure MacModel where
  newFromSlice : List Nat → Option (List Nat)
  update : List Nat → List Nat → List Nat
  finalize : List Nat → List Nat

/-- `MacHte::new` (`src/mac_hte_transform.rs` lines 92-98): clone the caller's
key into `mac_key`, verbatim, with no validation. -/
def macHteNew (key : List Nat) : List Nat := key

/-- `MacHte::encrypt_in_place_detached` (`src/mac_hte_transform.rs` lines
112-134): `mac = M::new_from_slice(mac_key).expect("invalid MAC key length")`,
`mac.update(nonce); mac.update(aad)`, truncate the digest to `A::KeySize`
bytes and call the inner AEAD with the same nonce and empty associated data. -/
def macHteEncrypt (M : MacModel) (A : AeadModel)
    (mac_key nonce aad buffer : List Nat) : Option (List Nat × List Nat) :=
  match M.newFromSlice mac_key with
  | none => none
  | some st =>
    A.encrypt ((M.finalize (M.update (M.update st nonce) aad)).take A.keySize)
      nonce [] buffer

/-- `MacHte::decrypt_in_place_detached` (`src/mac_hte_transform.rs` lines
141-164): identical key derivation, inner decrypt with empty associated
data. -/
def macHteDecrypt (M : MacModel) (A : AeadModel)
    (mac_key nonce aad buffer tag : List Nat) : Option (Bool × List Nat) :=
  match M.newFromSlice mac_key with
  | none => none
  | some st =>
    A.decrypt ((M.finalize (M.update (M.update st nonce) aad)).take A.keySize)
      nonce [] buffer tag

/-- `MacHte` as an AEAD: `type KeySize = A::KeySize`
(`src/mac_hte_transform.rs` line 90). -/
def macHteAead (M : MacModel) (A : AeadModel) : AeadModel :=
  { keySize := A.keySize
    encrypt := fun key n aad pt => macHteEncrypt M A (macHteNew key) n aad pt
    decrypt := fun key n aad ct tag => macHteDecrypt M A (macHteNew key) n aad ct tag }

/-- Spec §4.5 salt: `HKDF-Extract(salt = "HkdfHte", ikm = key)`. -/
def specHteSalt : List Nat := [72, 107, 100, 102, 72, 116, 101]

/-- Spec §4.5 encrypt, written from the spec sentence: `enc_key =
HKDF-Expand(prk, info = nonce || aad, len = A.KeySize)` with `prk =
HKDF-Extract(salt = "HkdfHte", ikm = key)`, then `A.encrypt(enc_key, nonce,
aad = empty, plaintext)`, returned unchanged. -/
def specHkdfHteEncrypt (Hk : HkdfModel) (A : AeadModel)
    (key nonce aad pt : List Nat) : Option (List Nat × List Nat) :=
  match Hk.expand (Hk.extract specHteSalt key) (nonce ++ aad) A.keySize with
  | none => none
  | some enc_key => A.encrypt enc_key nonce [] pt

/-- Spec §4.5 decrypt: derive the same `enc_key` from `(nonce, aad)` and call
`A.decrypt(enc_key, nonce, aad = empty, ciphertext, tag)`. -/
def specHkdfHteDecrypt (Hk : HkdfModel) (A : AeadModel)
    (key nonce aad ct tag : List Nat) : Option (Bool × List Nat) :=
  match Hk.expand (Hk.extract specHteSalt key) (nonce ++ aad) A.keySize with
  | none => none
  | some enc_key => A.decrypt enc_key nonce [] ct tag

/-- Spec §4.6: `digest = MAC(key, nonce || aad)` as a one-shot keyed MAC. -/
def specMacFn (M : MacModel) (key msg : List Nat) : Option (List Nat) :=
  match M.newFromSlice key with
  | none => none
  | some st => some (M.finalize (M.update st msg))

/-- Spec §4.6 encrypt: `enc_key = digest[0 .. A.KeySize]` (left truncation of
`MAC(key, nonce || aad)`), then the inner AEAD with empty associated data. -/
def specMacHteEncrypt (M : MacModel) (A : AeadModel)
    (key nonce aad pt : List Nat) : Option (List Nat × List Nat) :=
  match specMacFn M key (nonce ++ aad) with
  | none => none
  | some digest => A.encrypt (digest.take A.keySize) nonce [] pt

/-- Spec §4.6 decrypt: same derivation, inner decrypt with empty associated
data. -/
def specMacHteDecrypt (M : MacModel) (A : AeadModel)
    (key nonce aad ct tag : List Nat) : Option (Bool × List Nat) :=
  match specMacFn M key (nonce ++ aad) with
  | none => none
  | some digest => A.decrypt (digest.take A.keySize) nonce [] ct tag

/-- `UtcOverAesGcm`'s `type KeySize = Ciph::KeySize`
(`src/utc_transform.rs` line 90). -/
def utcKeySize (c : CipherCfg) : Nat := c.keySize

/-- `CxPrf`'s `type KeySize = Ciph::KeySize` (`src/cx_prf.rs` line 58). -/
def cxPrfKeySize (c : CipherCfg) : Nat := c.keySize

/-- `CxPrf`'s `type MaskSize = Ciph::KeySize` (`src/cx_prf.rs` line 92). -/
def cxMaskSize (c : CipherCfg) : Nat := c.keySize

/-- `CxPrf`'s `type ComSize = DoubleKeySize<Ciph>` (`src/cx_prf.rs` line 89). -/
def cxComSize (c : CipherCfg) : Nat := c.keySize + c.keySize

/-- The base AEAD `AesGcm<Ciph, U12>`'s key size: the `aes_gcm` crate keys
`AesGcm` with `Ciph::KeySize` bytes (the mask is used as that key,
`src/utc_transform.rs` lines 115, 136). -/
def aesGcmKeySize (c : CipherCfg) : Nat := c.keySize

theorem setSlice_length (buf xs : List Nat) (off : Nat)
    (h : off + xs.length ≤ buf.length) :
    (setSlice buf off xs).length = buf.length := by
  simp only [setSlice, List.length_append, List.length_take, List.length_drop]
  omega

theorem cxMakeBlock_length (b : Nat) (msg : List Nat) (i : Nat)
    (hb : 1 ≤ b) (hm : msg.length ≤ b) :
    (cxMakeBlock b msg i).length = b := by
  have h1 : (setSlice (List.replicate b 0) 0 msg).length = b := by
    have := setSlice_length (List.replicate b 0) msg 0 (by simp; omega)
    simpa using this
  have h2 := setSlice_length (setSlice (List.replicate b 0) 0 msg)
    [(i + 1) % 256] (b - 1) (by simp [h1]; omega)
  simpa [cxMakeBlock, h1] using h2

theorem cxMakeBlock_eq (b : Nat) (msg : List Nat) (i : Nat)
    (hb : 1 ≤ b) (hm : msg.length ≤ b - 1) :
    cxMakeBlock b msg i =
      msg ++ List.replicate (b - 1 - msg.length) 0 ++ [(i + 1) % 256] := by
  have hm' : msg.length ≤ b := le_trans hm (Nat.sub_le b 1)
  have h1 : setSlice (List.replicate b 0) 0 msg
      = msg ++ List.replicate (b - msg.length) 0 := by
    simp [setSlice, List.drop_replicate]
  rw [cxMakeBlock, h1, setSlice]
  have hdrop : (msg ++ List.replicate (b - msg.length) 0).drop
      (b - 1 + [(i + 1) % 256].length) = [] := by
    apply List.drop_eq_nil_of_le
    simp; omega
  have htake : (msg ++ List.replicate (b - msg.length) 0).take (b - 1) =
      msg ++ List.replicate (b - 1 - msg.length) 0 := by
    rw [List.take_append_eq_append_take, List.take_of_length_le (by omega),
        List.take_replicate]
    have hmin : (b - 1 - msg.length) ⊓ (b - msg.length) = b - 1 - msg.length := by
      omega
    rw [hmin]
  rw [hdrop, htake]
  simp

theorem flatten_length_const (b : Nat) :
    ∀ l : List (List Nat), (∀ x ∈ l, x.length = b) →
      l.flatten.length = l.length * b := by
  intro l
  induction l with
  | nil => intro _; simp
  | cons hd tl ih =>
    intro h
    have hhd := h hd (by simp)
    have htl := ih (fun x hx => h x (List.mem_cons_of_mem _ hx))
    simp only [List.flatten_cons, List.length_append, List.length_cons, hhd, htl]
    ring

theorem xorHead_length (vs : List (List Nat)) (x : List Nat) :
    (xorHead vs x).length = vs.length := by
  cases vs <;> simp [xorHead]

theorem xorHead_mem_length (b : Nat) (vs : List (List Nat)) (x : List Nat)
    (hvs : ∀ y ∈ vs, y.length = b) (hx : x.length = b) :
    ∀ y ∈ xorHead vs x, y.length = b := by
  cases vs with
  | nil => simp [xorHead]
  | cons v rest =>
    intro y hy
    simp only [xorHead, List.mem_cons] at hy
    rcases hy with hy | hy
    · subst hy
      simp [xorBlock, List.length_zipWith, hvs v (by simp), hx]
    · exact hvs y (List.mem_cons_of_mem _ hy)

theorem cxBlocks_length (c : CipherCfg) (msg : List Nat) :
    (cxBlocks c msg).length = cxNumTotalBlocks c := by
  simp [cxBlocks]

theorem cxBlocks_mem_length (c : CipherCfg) (msg : List Nat)
    (hb : 1 ≤ c.blockSize) (hm : msg.length ≤ c.blockSize) :
    ∀ x ∈ cxBlocks c msg, x.length = c.blockSize := by
  intro x hx
  simp only [cxBlocks, List.mem_map] at hx
  obtain ⟨j, _, rfl⟩ := hx
  exact cxMakeBlock_length _ _ _ hb hm

theorem cxBlocks_headD_length (c : CipherCfg) (msg : List Nat)
    (hb : 1 ≤ c.blockSize) (hm : msg.length ≤ c.blockSize)
    (hpos : 1 ≤ cxNumTotalBlocks c) :
    ((cxBlocks c msg).headD []).length = c.blockSize := by
  have hne : cxBlocks c msg ≠ [] := by
    intro hcon
    have := cxBlocks_length c msg
    rw [hcon] at this
    simp at this
    omega
  obtain ⟨hd, tl, heq⟩ := List.exists_cons_of_ne_nil hne
  have hmem : hd ∈ cxBlocks c msg := by rw [heq]; exact List.mem_cons_self _ _
  have hl := cxBlocks_mem_length c msg hb hm hd hmem
  rw [heq]
  simpa using hl

theorem cxCore_lengths (c : CipherCfg) (E : List Nat → List Nat) (msg : List Nat)
    (hb : 1 ≤ c.blockSize) (hm : msg.length ≤ c.blockSize)
    (hE : ∀ x, (E x).length = c.blockSize) :
    (cxCore c E msg).1.length = cxNumComBlocks c * c.blockSize ∧
    (cxCore c E msg).2.length = cxNumMaskBlocks c * c.blockSize := by
  by_cases hz : cxNumTotalBlocks c = 0
  · have hncb : cxNumComBlocks c = 0 := by
      have := hz; unfold cxNumTotalBlocks at this; omega
    have hnmb : cxNumMaskBlocks c = 0 := by
      have := hz; unfold cxNumTotalBlocks at this; omega
    have hnil : cxBlocks c msg = [] := by simp [cxBlocks, hz]
    simp [cxCore, hnil, xorHead, hncb, hnmb]
  · have hpos : 1 ≤ cxNumTotalBlocks c := Nat.one_le_iff_ne_zero.mpr hz
    have hmapE : ∀ y ∈ (cxBlocks c msg).map E, y.length = c.blockSize := by
      intro y hy
      simp only [List.mem_map] at hy
      obtain ⟨x, _, rfl⟩ := hy
      exact hE x
    have hhd := cxBlocks_headD_length c msg hb hm hpos
    have hencd := xorHead_mem_length c.blockSize _ _ hmapE hhd
    have hlen : (xorHead ((cxBlocks c msg).map E) ((cxBlocks c msg).headD [])).length
        = cxNumTotalBlocks c := by
      rw [xorHead_length]
      simp [cxBlocks_length]
    constructor
    · have h1 : ∀ y ∈ (xorHead ((cxBlocks c msg).map E)
          ((cxBlocks c msg).headD [])).take (cxNumComBlocks c),
          y.length = c.blockSize :=
        fun y hy => hencd y (List.take_subset _ _ hy)
      show (((xorHead ((cxBlocks c msg).map E) ((cxBlocks c msg).headD [])).take
        (cxNumComBlocks c)).flatten).length = cxNumComBlocks c * c.blockSize
      rw [flatten_length_const c.blockSize _ h1, List.length_take, hlen]
      have hmin : cxNumComBlocks c ⊓ cxNumTotalBlocks c = cxNumComBlocks c := by
        unfold cxNumTotalBlocks
        omega
      rw [hmin]
    · have h2 : ∀ y ∈ ((xorHead ((cxBlocks c msg).map E)
          ((cxBlocks c msg).headD [])).drop (cxNumComBlocks c)).take
          (cxNumMaskBlocks c), y.length = c.blockSize :=
        fun y hy => hencd y (List.drop_subset _ _ (List.take_subset _ _ hy))
      show ((((xorHead ((cxBlocks c msg).map E) ((cxBlocks c msg).headD [])).drop
        (cxNumComBlocks c)).take (cxNumMaskBlocks c)).flatten).length
        = cxNumMaskBlocks c * c.blockSize
      rw [flatten_length_const c.blockSize _ h2, List.length_take,
          List.length_drop, hlen]
      have hmin : cxNumMaskBlocks c ⊓ (cxNumTotalBlocks c - cxNumComBlocks c)
          = cxNumMaskBlocks c := by
        unfold cxNumTotalBlocks
        omega
      rw [hmin]

theorem cxPrf_eq_core (c : CipherCfg) (E : List Nat → List Nat) (msg : List Nat)
    (hb : 1 ≤ c.blockSize) (hm : msg.length ≤ c.blockSize)
    (hdvd : c.blockSize ∣ c.keySize) (hk : 1 ≤ c.keySize)
    (hE : ∀ x, (E x).length = c.blockSize)
    (h6 : cxNumTotalBlocks c ≤ 6) :
    cxPrf c E msg = some (cxCore c E msg) := by
  have hbk : c.blockSize ≤ c.keySize := Nat.le_of_dvd (by omega) hdvd
  have hnmb : 1 ≤ cxNumMaskBlocks c := by
    unfold cxNumMaskBlocks
    exact (Nat.one_le_div_iff (by omega)).mpr hbk
  have hcl := cxCore_lengths c E msg hb hm hE
  have hcom : cxNumComBlocks c * c.blockSize = c.keySize + c.keySize := by
    unfold cxNumComBlocks
    exact Nat.div_mul_cancel (Dvd.dvd.add hdvd hdvd)
  have hmask : cxNumMaskBlocks c * c.blockSize = c.keySize := by
    unfold cxNumMaskBlocks
    exact Nat.div_mul_cancel hdvd
  unfold cxPrf
  rw [if_neg (by omega), if_neg (by omega),
      if_neg (by unfold cxNumTotalBlocks; omega),
      if_pos ⟨by rw [hcl.1, hcom], by rw [hcl.2, hmask]⟩]

theorem cxPrf_isSome (c : CipherCfg) (E : List Nat → List Nat) (msg : List Nat)
    (hb : 1 ≤ c.blockSize) (hm : msg.length ≤ c.blockSize)
    (hdvd : c.blockSize ∣ c.keySize) (hk : 1 ≤ c.keySize)
    (hE : ∀ x, (E x).length = c.blockSize)
    (h6 : cxNumTotalBlocks c ≤ 6) :
    ∃ com mask, cxPrf c E msg = some (com, mask) := by
  exact ⟨(cxCore c E msg).1, (cxCore c E msg).2,
    by rw [cxPrf_eq_core c E msg hb hm hdvd hk hE h6]⟩

theorem cxPrf_some_lengths {c : CipherCfg} {E : List Nat → List Nat}
    {msg com mask : List Nat} (h : cxPrf c E msg = some (com, mask)) :
    com.length = c.keySize + c.keySize ∧ mask.length = c.keySize := by
  unfold cxPrf at h
  split at h
  · simp at h
  · split at h
    · simp at h
    · split at h
      · simp at h
      · split at h
        · rename_i hcond
          injection h with h2
          rw [h2] at hcond
          simpa using hcond
        · simp at h

theorem pack_tag_eq_append (c : CipherCfg) (g p : List Nat)
    (hg : g.length = AesGcmTagSize) (hp : p.length = c.keySize + c.keySize) :
    pack_tag c g p = g ++ p := by
  have h1 : setSlice (List.replicate (utcTagSize c) 0) 0 g
      = g ++ List.replicate (c.keySize + c.keySize) 0 := by
    simp [setSlice, hg, List.drop_replicate, utcTagSize]
  rw [pack_tag, h1, setSlice]
  have hdrop : (g ++ List.replicate (c.keySize + c.keySize) 0).drop
      (AesGcmTagSize + p.length) = [] := by
    apply List.drop_eq_nil_of_le
    simp [hg, hp, AesGcmTagSize]
  rw [hdrop, List.take_left' hg]
  simp

theorem pack_tag_length (c : CipherCfg) (g p : List Nat)
    (hg : g.length = AesGcmTagSize) (hp : p.length = c.keySize + c.keySize) :
    (pack_tag c g p).length = AesGcmTagSize + (c.keySize + c.keySize) := by
  rw [pack_tag_eq_append c g p hg hp]
  simp [hg, hp]

theorem unpack_pack_tag (c : CipherCfg) (g p : List Nat)
    (hg : g.length = AesGcmTagSize) (hp : p.length = c.keySize + c.keySize) :
    unpack_tag (pack_tag c g p) = (g, p) := by
  rw [pack_tag_eq_append c g p hg hp, unpack_tag]
  rw [List.take_left' hg, List.drop_left' hg]

theorem cxNumTotalBlocks_eq_three_div (c : CipherCfg) (hb : 1 ≤ c.blockSize)
    (hdvd : c.blockSize ∣ c.keySize) :
    cxNumTotalBlocks c = 3 * c.keySize / c.blockSize := by
  obtain ⟨m, hm⟩ := hdvd
  unfold cxNumTotalBlocks cxNumComBlocks cxNumMaskBlocks
  rw [hm]
  have e1 : c.blockSize * m + c.blockSize * m = c.blockSize * (2 * m) := by ring
  have e2 : 3 * (c.blockSize * m) = c.blockSize * (3 * m) := by ring
  rw [e1, e2, Nat.mul_div_cancel_left _ (by omega),
      Nat.mul_div_cancel_left _ (by omega), Nat.mul_div_cancel_left _ (by omega)]
  omega

theorem cxNumTotalBlocks_le_six_iff (c : CipherCfg) (hb : 1 ≤ c.blockSize)
    (hdvd : c.blockSize ∣ c.keySize) :
    cxNumTotalBlocks c ≤ 6 ↔ c.keySize ≤ 2 * c.blockSize := by
  obtain ⟨m, hm⟩ := hdvd
  unfold cxNumTotalBlocks cxNumComBlocks cxNumMaskBlocks
  rw [hm]
  have e1 : c.blockSize * m + c.blockSize * m = c.blockSize * (2 * m) := by ring
  rw [e1, Nat.mul_div_cancel_left _ (by omega), Nat.mul_div_cancel_left _ (by omega)]
  have h2 : c.blockSize * m ≤ c.blockSize * 2 ↔ m ≤ 2 := mul_le_mul_iff_of_pos_left (by omega)
  constructor
  · intro h
    have hm2 : m ≤ 2 := by omega
    calc c.blockSize * m ≤ c.blockSize * 2 := h2.mpr hm2
      _ = 2 * c.blockSize := by ring
  · intro h
    have : c.blockSize * m ≤ c.blockSize * 2 := by
      calc c.blockSize * m ≤ 2 * c.blockSize := h
        _ = c.blockSize * 2 := by ring
    have hm2 : m ≤ 2 := h2.mp this
    omega

theorem cxBlocks_eq_spec (c : CipherCfg) (msg : List Nat)
    (hb : 1 ≤ c.blockSize) (hm : msg.length ≤ c.blockSize - 1)
    (h6 : cxNumTotalBlocks c ≤ 6) :
    cxBlocks c msg = specCxBlocks c msg := by
  unfold cxBlocks specCxBlocks
  apply List.map_congr_left
  intro j hj
  have hj6 : j < 6 := lt_of_lt_of_le (List.mem_range.mp hj) h6
  rw [cxMakeBlock_eq c.blockSize msg j hb hm]
  unfold specCxBlock
  rw [Nat.mod_eq_of_lt (by omega)]

theorem cxCore_eq_spec (c : CipherCfg) (E : List Nat → List Nat) (msg : List Nat)
    (hb : 1 ≤ c.blockSize) (hm : msg.length ≤ c.blockSize - 1)
    (h6 : cxNumTotalBlocks c ≤ 6) :
    cxCore c E msg = specCxPrf c E msg := by
  unfold cxCore specCxPrf
  rw [cxBlocks_eq_spec c msg hb hm h6]

theorem cxPrf_eq_specCxPrf (c : CipherCfg) (E : List Nat → List Nat) (msg : List Nat)
    (hb : 1 ≤ c.blockSize) (hm : msg.length ≤ c.blockSize - 1)
    (hdvd : c.blockSize ∣ c.keySize) (hk : 1 ≤ c.keySize)
    (hE : ∀ x, (E x).length = c.blockSize)
    (h6 : cxNumTotalBlocks c ≤ 6) :
    cxPrf c E msg = some (specCxPrf c E msg) := by
  rw [cxPrf_eq_core c E msg hb (by omega) hdvd hk hE h6,
      cxCore_eq_spec c E msg hb hm h6]

theorem utc_roundtrip_aux (c : CipherCfg) (aes : List Nat → List Nat → List Nat)
    (G : GcmModel)
    (hc : c = CipherCfg.mk 16 16 ∨ c = CipherCfg.mk 32 16)
    (haes : ∀ key x, (aes key x).length = 16)
    (hGrt : ∀ k n a pt,
      G.clobberingDecrypt k n a (G.encrypt k n a pt).1 (G.encrypt k n a pt).2 = (pt, true))
    (hGtag : ∀ k n a pt, ((G.encrypt k n a pt).2).length = AesGcmTagSize)
    (key nonce aad pt : List Nat) (hn : nonce.length = AesGcmNonceSize) :
    aeadRoundtrip (utcAead c aes G) key nonce aad pt := by
  have hb : 1 ≤ c.blockSize := by rcases hc with rfl | rfl <;> decide
  have hm : nonce.length ≤ c.blockSize := by
    rcases hc with rfl | rfl <;> simp [AesGcmNonceSize] at hn ⊢ <;> omega
  have hdvd : c.blockSize ∣ c.keySize := by rcases hc with rfl | rfl <;> decide
  have hk : 1 ≤ c.keySize := by rcases hc with rfl | rfl <;> decide
  have hE : ∀ x, ((aes key) x).length = c.blockSize := by
    intro x
    rcases hc with rfl | rfl <;> simp [haes key x]
  have h6 : cxNumTotalBlocks c ≤ 6 := by rcases hc with rfl | rfl <;> decide
  obtain ⟨com, mask, hsome⟩ := cxPrf_isSome c (aes key) nonce hb hm hdvd hk hE h6
  have hlen := cxPrf_some_lengths hsome
  refine ⟨(G.encrypt mask nonce aad pt).1,
          pack_tag c (G.encrypt mask nonce aad pt).2 com, ?_, ?_⟩
  · show utcEncrypt c aes G key nonce aad pt = _
    unfold utcEncrypt
    rw [hsome]
  · show utcDecrypt c aes G key nonce aad _ _ = _
    unfold utcDecrypt
    rw [hsome]
    have hup := unpack_pack_tag c (G.encrypt mask nonce aad pt).2 com
      (hGtag mask nonce aad pt) hlen.1
    rw [hup]
    simp [hGrt mask nonce aad pt]

theorem hkdfHte_roundtrip_aux (Hk : HkdfModel) (A : AeadModel)
    (key nonce aad pt : List Nat)
    (hexp : ∀ prk parts len, (Hk.expandMulti prk parts len).isSome = true)
    (hA : ∀ k2 p2, aeadRoundtrip A k2 nonce [] p2) :
    aeadRoundtrip (hkdfHteAead Hk A) key nonce aad pt := by
  obtain ⟨ek, hek⟩ := Option.isSome_iff_exists.mp
    (hexp (hkdfHteNew Hk key) [nonce, aad] A.keySize)
  obtain ⟨ct, tag, he, hd⟩ := hA ek pt
  refine ⟨ct, tag, ?_, ?_⟩
  · show hkdfHteEncrypt Hk A (hkdfHteNew Hk key) nonce aad pt = some (ct, tag)
    unfold hkdfHteEncrypt
    rw [hek]
    exact he
  · show hkdfHteDecrypt Hk A (hkdfHteNew Hk key) nonce aad ct tag = some (true, pt)
    unfold hkdfHteDecrypt
    rw [hek]
    exact hd

theorem macHte_roundtrip_aux (M : MacModel) (A : AeadModel)
    (key nonce aad pt : List Nat)
    (hmac : ∀ k2, (M.newFromSlice k2).isSome = true)
    (hA : ∀ k2 p2, aeadRoundtrip A k2 nonce [] p2) :
    aeadRoundtrip (macHteAead M A) key nonce aad pt := by
  obtain ⟨st, hst⟩ := Option.isSome_iff_exists.mp (hmac (macHteNew key))
  obtain ⟨ct, tag, he, hd⟩ :=
    hA ((M.finalize (M.update (M.update st nonce) aad)).take A.keySize) pt
  refine ⟨ct, tag, ?_, ?_⟩
  · show macHteEncrypt M A (macHteNew key) nonce aad pt = some (ct, tag)
    unfold macHteEncrypt
    rw [hst]
    exact he
  · show macHteDecrypt M A (macHteNew key) nonce aad ct tag = some (true, pt)
    unfold macHteDecrypt
    rw [hst]
    exact hd

/-- A concrete always-length-16 block map used to instantiate the theorems. -/
def padE16 : List Nat → List Nat := fun x => (x ++ List.replicate 16 0).take 16

/-- A concrete block-cipher family for witnesses (key-independent, length-16
output blocks). -/
def testAes : List Nat → List Nat → List Nat := fun _ x => padE16 x

/-- A concrete GCM collaborator satisfying the round-trip contracts. -/
def testGcm : GcmModel :=
  { encrypt := fun _ _ _ pt => (pt, List.replicate 16 0)
    clobberingDecrypt := fun _ _ _ buf _ => (buf, true)
    unclobber := fun _ _ buf _ => buf }

/-- A concrete GCM collaborator whose tag check always fails, satisfying the
unclobber-restores contract. -/
def failGcm : GcmModel :=
  { encrypt := fun _ _ _ pt => (pt, List.replicate 16 0)
    clobberingDecrypt := fun _ _ _ buf _ => (buf, false)
    unclobber := fun _ _ buf _ => buf }

/-- A concrete HKDF collaborator. -/
def testHkdf : HkdfModel :=
  { extract := fun _ ikm => ikm
    expand := fun _ _ len => some (List.replicate len 0)
    expandMulti := fun _ _ len => some (List.replicate len 0) }

/-- A concrete MAC collaborator (state = absorbed bytes). -/
def testMac : MacModel :=
  { newFromSlice := fun key => some key
    update := fun st data => st ++ data
    finalize := fun st => st ++ List.replicate 64 0 }

/-- A concrete MAC collaborator that rejects every key length. -/
def rejectMac : MacModel :=
  { newFromSlice := fun _ => none
    update := fun st _ => st
    finalize := fun st => st }

/-- A concrete inner AEAD for the HtE witnesses. -/
def testAead : AeadModel :=
  { keySize := 16
    encrypt := fun _ _ _ pt => some (pt, List.replicate 16 0)
    decrypt := fun _ _ _ ct _ => some (true, ct) }

/-- Claim C1: for every supported scheme (UtC over AES-128/256-GCM and the
HkdfHte and MacHte wrappers over them), every key, nonce and (plaintext, aad)
pair, decrypting the output of encrypt with the same key, nonce and aad
succeeds and returns the original plaintext.  The collaborator contracts of
the patched AES-GCM (round-trip of clobbering decrypt, 16-byte tags), HKDF
expand and the MAC (no failure) are hypotheses. -/
theorem utc_hte_machte_roundtrip
    (c : CipherCfg) (aes : List Nat → List Nat → List Nat) (G : GcmModel)
    (Hk : HkdfModel) (M : MacModel)
    (hc : c = CipherCfg.mk 16 16 ∨ c = CipherCfg.mk 32 16)
    (haes : ∀ key x, (aes key x).length = 16)
    (hGrt : ∀ k n a pt,
      G.clobberingDecrypt k n a (G.encrypt k n a pt).1 (G.encrypt k n a pt).2 = (pt, true))
    (hGtag : ∀ k n a pt, ((G.encrypt k n a pt).2).length = AesGcmTagSize)
    (hexp : ∀ prk parts len, (Hk.expandMulti prk parts len).isSome = true)
    (hmac : ∀ k2, (M.newFromSlice k2).isSome = true)
    (key nonce aad pt : List Nat) (hn : nonce.length = AesGcmNonceSize) :
    aeadRoundtrip (utcAead c aes G) key nonce aad pt ∧
    aeadRoundtrip (hkdfHteAead Hk (utcAead c aes G)) key nonce aad pt ∧
    aeadRoundtrip (macHteAead M (utcAead c aes G)) key nonce aad pt := by
  have hutc : ∀ k2 a2 p2, aeadRoundtrip (utcAead c aes G) k2 nonce a2 p2 :=
    fun k2 a2 p2 => utc_roundtrip_aux c aes G hc haes hGrt hGtag k2 nonce a2 p2 hn
  refine ⟨hutc key aad pt, ?_, ?_⟩
  · exact hkdfHte_roundtrip_aux Hk _ key nonce aad pt hexp (fun k2 p2 => hutc k2 [] p2)
  · exact macHte_roundtrip_aux M _ key nonce aad pt hmac (fun k2 p2 => hutc k2 [] p2)

/-- Witness for C1 at a fully concrete instantiation. -/
theorem utc_hte_machte_roundtrip_witness :
    aeadRoundtrip (utcAead (CipherCfg.mk 16 16) testAes testGcm)
      (List.replicate 16 0) (List.replicate 12 0) [1, 2, 3] [4, 5, 6, 7] ∧
    aeadRoundtrip (hkdfHteAead testHkdf (utcAead (CipherCfg.mk 16 16) testAes testGcm))
      (List.replicate 16 0) (List.replicate 12 0) [1, 2, 3] [4, 5, 6, 7] ∧
    aeadRoundtrip (macHteAead testMac (utcAead (CipherCfg.mk 16 16) testAes testGcm))
      (List.replicate 16 0) (List.replicate 12 0) [1, 2, 3] [4, 5, 6, 7] :=
  utc_hte_machte_roundtrip (CipherCfg.mk 16 16) testAes testGcm testHkdf testMac
    (Or.inl rfl)
    (fun _ x => by
      show (padE16 x).length = 16
      simp only [padE16, List.length_take, List.length_append, List.length_replicate]
      omega)
    (fun _ _ _ _ => rfl)
    (fun _ _ _ _ => rfl)
    (fun _ _ _ => rfl)
    (fun _ => rfl)
    (List.replicate 16 0) (List.replicate 12 0) [1, 2, 3] [4, 5, 6, 7]
    (by decide)

/-- Claim C2: whenever UtC's decrypt_in_place_detached fails, because the base
GCM tag does not match, or the PRF commitment does not match, or both, it
returns the single opaque error value (the same `Err(aead::Error)` result in
all three cases, modelled as the uniform `some (false, _)` outcome) and the
caller's buffer holds exactly the ciphertext bytes that were passed in,
restored by `unclobber` (whose external contract is the hypothesis
`hunclob`). -/
theorem utc_decrypt_failure_restores_buffer
    (c : CipherCfg) (aes : List Nat → List Nat → List Nat) (G : GcmModel)
    (hc : c = CipherCfg.mk 16 16 ∨ c = CipherCfg.mk 32 16)
    (haes : ∀ key x, (aes key x).length = 16)
    (hunclob : ∀ k n a buf t,
      G.unclobber k n (G.clobberingDecrypt k n a buf t).1 t = buf)
    (key nonce aad buffer tag : List Nat) (hn : nonce.length = AesGcmNonceSize)
    (hfail : ∀ ecom mask, cxPrf c (aes key) nonce = some (ecom, mask) →
      (G.clobberingDecrypt mask nonce aad buffer (unpack_tag tag).1).2 = false ∨
      (unpack_tag tag).2 ≠ ecom) :
    utcDecrypt c aes G key nonce aad buffer tag = some (false, buffer) := by
  have hb : 1 ≤ c.blockSize := by rcases hc with rfl | rfl <;> decide
  have hm : nonce.length ≤ c.blockSize := by
    rcases hc with rfl | rfl <;> simp [AesGcmNonceSize] at hn ⊢ <;> omega
  have hdvd : c.blockSize ∣ c.keySize := by rcases hc with rfl | rfl <;> decide
  have hk : 1 ≤ c.keySize := by rcases hc with rfl | rfl <;> decide
  have hE : ∀ x, ((aes key) x).length = c.blockSize := by
    intro x
    rcases hc with rfl | rfl <;> simp [haes key x]
  have h6 : cxNumTotalBlocks c ≤ 6 := by rcases hc with rfl | rfl <;> decide
  obtain ⟨ecom, mask, hsome⟩ := cxPrf_isSome c (aes key) nonce hb hm hdvd hk hE h6
  unfold utcDecrypt
  rw [hsome]
  rcases hfail ecom mask hsome with hf | hf
  · simp [hf, hunclob mask nonce aad buffer (unpack_tag tag).1]
  · have hbeq : ((unpack_tag tag).2 == ecom) = false := beq_eq_false_iff_ne.mpr hf
    simp [hbeq, hunclob mask nonce aad buffer (unpack_tag tag).1]

/-- Witness for C2: a GCM whose tag check fails; the buffer comes back
unchanged and the single error result is returned. -/
theorem utc_decrypt_failure_restores_buffer_witness :
    utcDecrypt (CipherCfg.mk 16 16) testAes failGcm (List.replicate 16 0)
      (List.replicate 12 0) [5] [9, 9, 9] (List.replicate 48 7)
      = some (false, [9, 9, 9]) :=
  utc_decrypt_failure_restores_buffer (CipherCfg.mk 16 16) testAes failGcm
    (Or.inl rfl)
    (fun _ x => by
      show (padE16 x).length = 16
      simp only [padE16, List.length_take, List.length_append, List.length_replicate]
      omega)
    (fun _ _ _ _ _ => rfl)
    (List.replicate 16 0) (List.replicate 12 0) [5] [9, 9, 9] (List.replicate 48 7)
    (by decide)
    (fun _ _ _ => Or.inl rfl)

/-- Claim C3 counterexample: for the AES-128 instantiation the UtC scheme key
size is 16 bytes and the base AEAD (AesGcm over the same cipher) key size is
also 16 bytes, so the scheme key size is NOT 2 x the base AEAD key size as the
claim states. -/
theorem utc_keysize_not_double_base :
    utcKeySize (CipherCfg.mk 16 16) = 16 ∧
    aesGcmKeySize (CipherCfg.mk 16 16) = 16 ∧
    ¬ utcKeySize (CipherCfg.mk 16 16) = 2 * aesGcmKeySize (CipherCfg.mk 16 16) := by
  decide

/-- Claim C3 amended: for every instantiation of the UtC transform, the scheme
key size equals the CommittingPrf key size, and that equals the base AEAD key
size (the mask length) — not twice it; the factor of two relates the PRF
commitment to the mask: ComSize = 2 x MaskSize. -/
theorem utc_keysize_algebra (c : CipherCfg) :
    utcKeySize c = cxPrfKeySize c ∧ cxPrfKeySize c = aesGcmKeySize c ∧
    cxMaskSize c = aesGcmKeySize c ∧ cxComSize c = 2 * cxMaskSize c := by
  refine ⟨rfl, rfl, rfl, ?_⟩
  unfold cxComSize cxMaskSize
  ring

/-- Claim C4 counterexample: for an AES-192-like cipher (24-byte key, 16-byte
block, key size NOT a multiple of block size), `CxPrf` construction performs
no validation, and it is `prf()` that panics (returns no value), exactly as
the source's own NOTE comment and its `#[should_panic]` test `cx_aes192`
document — refuting the claim that the failure happens at construction time
and that `prf` never fails afterwards. -/
theorem cxprf_aes192_construction_succeeds_prf_panics :
    ¬ (16 ∣ 24) ∧
    cxPrf (CipherCfg.mk 24 16) padE16 (List.replicate 12 0) = none := by
  constructor
  · decide
  · decide

/-- Claim C4 amended: `CxPrf::new` never fails and performs no key/block-size
validation (it only keys the cipher); for every block cipher whose key size is
not a multiple of its block size, `prf()` itself panics at call time (the
documented behaviour). -/
theorem cxprf_no_construction_validation (c : CipherCfg)
    (aesFam : List Nat → List Nat → List Nat) (key msg : List Nat)
    (E : List Nat → List Nat)
    (hE : ∀ x, (E x).length = c.blockSize)
    (hndvd : ¬ c.blockSize ∣ c.keySize) :
    cxPrfNew aesFam key = aesFam key ∧ cxPrf c E msg = none := by
  refine ⟨rfl, ?_⟩
  unfold cxPrf
  split
  next => rfl
  next h1 =>
    split
    next => rfl
    next h2 =>
      split
      next => rfl
      next h3 =>
        split
        next hcond =>
          exfalso
          push_neg at h2
          have hb : 1 ≤ c.blockSize := by omega
          have hm2 : msg.length ≤ c.blockSize := by omega
          have hmask := (cxCore_lengths c E msg hb hm2 hE).2
          rw [hmask] at hcond
          have hc2 : c.blockSize * (c.keySize / c.blockSize) = c.keySize := by
            rw [Nat.mul_comm]
            simpa [cxNumMaskBlocks] using hcond.2
          have hmd := Nat.mod_add_div c.keySize c.blockSize
          have hr : c.keySize % c.blockSize = 0 := by omega
          exact hndvd (Nat.dvd_of_mod_eq_zero hr)
        next => rfl

/-- Witness for the amended C4 at an AES-192-like configuration. -/
theorem cxprf_no_construction_validation_witness :
    cxPrfNew (fun _ x => x) (List.replicate 24 0) = (fun _ x => x) (List.replicate 24 0) ∧
    cxPrf (CipherCfg.mk 24 16) padE16 (List.replicate 6 1) = none :=
  cxprf_no_construction_validation (CipherCfg.mk 24 16) (fun _ x => x)
    (List.replicate 24 0) (List.replicate 6 1) padE16
    (fun x => by
      show (padE16 x).length = 16
      simp only [padE16, List.length_take, List.length_append, List.length_replicate]
      omega)
    (by decide)

/-- Claim C5 counterexample: for a cipher with 1-byte blocks and a 3-byte key
(key size IS a multiple of block size), the reference computation of the spec
is defined, yet `prf` returns no value because 9 blocks exceed the 6-block
scratch buffer — so `prf(M)` does not equal the reference computation for
every block cipher with KeySize a multiple of BlockSize. -/
theorem cxprf_exceeds_scratch_vs_reference :
    (1 ∣ 3) ∧
    cxPrf (CipherCfg.mk 3 1) (fun x => [x.headD 0]) [] = none ∧
    specCxPrf (CipherCfg.mk 3 1) (fun x => [x.headD 0]) []
      = ([0, 2, 3, 4, 5, 6], [7, 8, 9]) ∧
    cxPrf (CipherCfg.mk 3 1) (fun x => [x.headD 0]) []
      ≠ some (specCxPrf (CipherCfg.mk 3 1) (fun x => [x.headD 0]) []) ∧
    (∀ x : List Nat, ((fun y : List Nat => [y.headD 0]) x).length = 1) := by
  refine ⟨by decide, by decide, by decide, by decide, fun x => rfl⟩

/-- Claim C5 amended: for every message that fits in a block and every block
cipher whose key size is a multiple of its block size AND whose total block
count fits the 6-block scratch buffer, `prf(M)` equals the reference
computation of spec §4.2 (blocks `X_i = M || 0.. || i`, encrypt all, XOR
`X_1` into `V_1`, then split into commitment and mask). -/
theorem cxprf_matches_reference (c : CipherCfg) (E : List Nat → List Nat)
    (msg : List Nat)
    (hb : 1 ≤ c.blockSize) (hm : msg.length ≤ c.blockSize - 1)
    (hdvd : c.blockSize ∣ c.keySize) (hk : 1 ≤ c.keySize)
    (hE : ∀ x, (E x).length = c.blockSize)
    (h6 : cxNumTotalBlocks c ≤ 6) :
    cxPrf c E msg = some (specCxPrf c E msg) :=
  cxPrf_eq_specCxPrf c E msg hb hm hdvd hk hE h6

/-- Witness for the amended C5 at the AES-128 configuration. -/
theorem cxprf_matches_reference_witness :
    cxPrf (CipherCfg.mk 16 16) padE16 (List.replicate 12 0)
      = some (specCxPrf (CipherCfg.mk 16 16) padE16 (List.replicate 12 0)) :=
  cxprf_matches_reference (CipherCfg.mk 16 16) padE16 (List.replicate 12 0)
    (by decide) (by decide) (by decide) (by decide)
    (fun x => by
      show (padE16 x).length = 16
      simp only [padE16, List.length_take, List.length_append, List.length_replicate]
      omega)
    (by decide)

/-- Claim C6: HkdfHte's encrypt derives `enc_key` by HKDF-Expand with
`info = nonce || aad` from `prk = HKDF-Extract(salt = "HkdfHte", ikm = key)`
and calls the inner AEAD with that key, the same nonce, EMPTY associated data
and the unchanged buffer; decrypt derives the same key the same way — both
equal the spec-side computation, given the hkdf crate's documented contract
that `expand_multi_info` is `expand` of the concatenated info components. -/
theorem hkdfhte_matches_spec (Hk : HkdfModel) (A : AeadModel)
    (key nonce aad pt ct tg : List Nat)
    (hjoin : ∀ prk parts len,
      Hk.expandMulti prk parts len = Hk.expand prk parts.flatten len) :
    (hkdfHteAead Hk A).encrypt key nonce aad pt
      = specHkdfHteEncrypt Hk A key nonce aad pt ∧
    (hkdfHteAead Hk A).decrypt key nonce aad ct tg
      = specHkdfHteDecrypt Hk A key nonce aad ct tg := by
  constructor
  · show hkdfHteEncrypt Hk A (hkdfHteNew Hk key) nonce aad pt = _
    unfold hkdfHteEncrypt specHkdfHteEncrypt hkdfHteNew
    rw [hjoin]
    simp [hkdfHteSalt, specHteSalt]
  · show hkdfHteDecrypt Hk A (hkdfHteNew Hk key) nonce aad ct tg = _
    unfold hkdfHteDecrypt specHkdfHteDecrypt hkdfHteNew
    rw [hjoin]
    simp [hkdfHteSalt, specHteSalt]

/-- Witness for C6 at a concrete instantiation. -/
theorem hkdfhte_matches_spec_witness :
    (hkdfHteAead testHkdf testAead).encrypt [1] [2] [3] [4]
      = specHkdfHteEncrypt testHkdf testAead [1] [2] [3] [4] ∧
    (hkdfHteAead testHkdf testAead).decrypt [1] [2] [3] [5] [6]
      = specHkdfHteDecrypt testHkdf testAead [1] [2] [3] [5] [6] :=
  hkdfhte_matches_spec testHkdf testAead [1] [2] [3] [4] [5] [6]
    (fun _ _ _ => rfl)

/-- Claim C7: MacHte's encrypt and decrypt both derive `enc_key` as the first
`A.KeySize` bytes (left truncation) of `digest = MAC(key, nonce || aad)` and
call the inner AEAD with that key, the same nonce and empty associated data;
the derivation is identical in both directions (both equal the one spec-side
computation), and under the `MAC.OutputSize >= A.KeySize` requirement the
derived key has exactly `A.KeySize` bytes.  The MAC's streaming contract
(consecutive updates concatenate) is the hypothesis `hupd`. -/
theorem machte_matches_spec (M : MacModel) (A : AeadModel)
    (key nonce aad pt ct tg : List Nat)
    (hupd : ∀ st xs ys, M.update (M.update st xs) ys = M.update st (xs ++ ys))
    (hlen : ∀ st, A.keySize ≤ (M.finalize st).length) :
    (macHteAead M A).encrypt key nonce aad pt
      = specMacHteEncrypt M A key nonce aad pt ∧
    (macHteAead M A).decrypt key nonce aad ct tg
      = specMacHteDecrypt M A key nonce aad ct tg ∧
    (∀ st, ((M.finalize st).take A.keySize).length = A.keySize) := by
  refine ⟨?_, ?_, ?_⟩
  · show macHteEncrypt M A (macHteNew key) nonce aad pt = _
    unfold macHteEncrypt specMacHteEncrypt specMacFn macHteNew
    rcases hM : M.newFromSlice key with _ | st
    · simp [hM]
    · simp [hM, hupd]
  · show macHteDecrypt M A (macHteNew key) nonce aad ct tg = _
    unfold macHteDecrypt specMacHteDecrypt specMacFn macHteNew
    rcases hM : M.newFromSlice key with _ | st
    · simp [hM]
    · simp [hM, hupd]
  · intro st
    have := hlen st
    simp only [List.length_take]
    omega

/-- Witness for C7 at a concrete instantiation. -/
theorem machte_matches_spec_witness :
    (macHteAead testMac testAead).encrypt [1] [2] [3] [4]
      = specMacHteEncrypt testMac testAead [1] [2] [3] [4] ∧
    (macHteAead testMac testAead).decrypt [1] [2] [3] [5] [6]
      = specMacHteDecrypt testMac testAead [1] [2] [3] [5] [6] ∧
    (∀ st, ((testMac.finalize st).take testAead.keySize).length
      = testAead.keySize) :=
  machte_matches_spec testMac testAead [1] [2] [3] [4] [5] [6]
    (fun st xs ys => by simp [testMac])
    (fun st => by
      show testAead.keySize ≤ (testMac.finalize st).length
      simp [testMac, testAead])

/-- Claim C8: for every base tag of `AesGcmTagSize` bytes and commitment of
`ComSize` bytes, `pack_tag` is the byte concatenation `tag || commitment` of
total length `AesGcmTagSize + ComSize`, and `unpack_tag` of the packed tag
returns exactly the original pair, byte for byte. -/
theorem pack_unpack_tag_identity (c : CipherCfg) (t com : List Nat)
    (ht : t.length = AesGcmTagSize) (hcom : com.length = c.keySize + c.keySize) :
    pack_tag c t com = t ++ com ∧
    (pack_tag c t com).length = AesGcmTagSize + (c.keySize + c.keySize) ∧
    unpack_tag (pack_tag c t com) = (t, com) :=
  ⟨pack_tag_eq_append c t com ht hcom, pack_tag_length c t com ht hcom,
   unpack_pack_tag c t com ht hcom⟩

/-- Witness for C8 at concrete 16- and 32-byte inputs. -/
theorem pack_unpack_tag_identity_witness :
    pack_tag (CipherCfg.mk 16 16) (List.replicate 16 1) (List.replicate 32 2)
      = List.replicate 16 1 ++ List.replicate 32 2 ∧
    (pack_tag (CipherCfg.mk 16 16) (List.replicate 16 1)
      (List.replicate 32 2)).length = AesGcmTagSize + (16 + 16) ∧
    unpack_tag (pack_tag (CipherCfg.mk 16 16) (List.replicate 16 1)
      (List.replicate 32 2)) = (List.replicate 16 1, List.replicate 32 2) :=
  pack_unpack_tag_identity (CipherCfg.mk 16 16) (List.replicate 16 1)
    (List.replicate 32 2) (by decide) (by decide)

/-- Claim C9: `prf` uses a fixed 6-block scratch buffer; the total block count
is `3 * KeySize / BlockSize` when KeySize is a multiple of BlockSize, and it
fits the scratch buffer exactly when `KeySize <= 2 * BlockSize`.  Whenever the
total fits, the internal slicing is in bounds and `prf` returns a (com, mask)
pair without panicking; for any configuration exceeding 6 blocks, `prf`
panics when taking the slice (returns no value). -/
theorem cxprf_six_block_scratch_limit (c : CipherCfg) (E : List Nat → List Nat)
    (msg : List Nat)
    (hb : 1 ≤ c.blockSize) (hm : msg.length ≤ c.blockSize)
    (hdvd : c.blockSize ∣ c.keySize) (hk : 1 ≤ c.keySize)
    (hE : ∀ x, (E x).length = c.blockSize) :
    cxNumTotalBlocks c = 3 * c.keySize / c.blockSize ∧
    (cxNumTotalBlocks c ≤ 6 ↔ c.keySize ≤ 2 * c.blockSize) ∧
    (cxNumTotalBlocks c ≤ 6 → ∃ p, cxPrf c E msg = some p) ∧
    (6 < cxNumTotalBlocks c → cxPrf c E msg = none) := by
  refine ⟨cxNumTotalBlocks_eq_three_div c hb hdvd,
          cxNumTotalBlocks_le_six_iff c hb hdvd, ?_, ?_⟩
  · intro h6
    exact ⟨cxCore c E msg, cxPrf_eq_core c E msg hb hm hdvd hk hE h6⟩
  · intro h6
    unfold cxPrf
    rw [if_pos h6]

/-- Witness for C9 at the AES-256 configuration (exactly 6 blocks). -/
theorem cxprf_six_block_scratch_limit_witness :
    cxNumTotalBlocks (CipherCfg.mk 32 16) = 3 * 32 / 16 ∧
    (cxNumTotalBlocks (CipherCfg.mk 32 16) ≤ 6 ↔ 32 ≤ 2 * 16) ∧
    (cxNumTotalBlocks (CipherCfg.mk 32 16) ≤ 6 →
      ∃ p, cxPrf (CipherCfg.mk 32 16) padE16 (List.replicate 12 0) = some p) ∧
    (6 < cxNumTotalBlocks (CipherCfg.mk 32 16) →
      cxPrf (CipherCfg.mk 32 16) padE16 (List.replicate 12 0) = none) :=
  cxprf_six_block_scratch_limit (CipherCfg.mk 32 16) padE16 (List.replicate 12 0)
    (by decide) (by decide) (by decide) (by decide)
    (fun x => by
      show (padE16 x).length = 16
      simp only [padE16, List.length_take, List.length_append, List.length_replicate]
      omega)

/-- Claim C10: `MacHte::new` accepts any key and stores it verbatim with no
validation against the MAC's key-length requirements; when the instantiated
MAC rejects the key (`new_from_slice` fails), the failure surfaces as the
panic `expect("invalid MAC key length")` inside encrypt/decrypt on first use
(modelled as `none`), not as a construction-time error. -/
theorem machte_new_stores_key_verbatim (M : MacModel) (A : AeadModel)
    (key nonce aad buffer tg : List Nat)
    (hreject : M.newFromSlice (macHteNew key) = none) :
    macHteNew key = key ∧
    macHteEncrypt M A (macHteNew key) nonce aad buffer = none ∧
    macHteDecrypt M A (macHteNew key) nonce aad buffer tg = none := by
  refine ⟨rfl, ?_, ?_⟩
  · unfold macHteEncrypt
    rw [hreject]
  · unfold macHteDecrypt
    rw [hreject]

/-- Witness for C10 with a MAC that rejects every key. -/
theorem machte_new_stores_key_verbatim_witness :
    macHteNew [1, 2, 3] = [1, 2, 3] ∧
    macHteEncrypt rejectMac testAead (macHteNew [1, 2, 3]) [4] [5] [6] = none ∧
    macHteDecrypt rejectMac testAead (macHteNew [1, 2, 3]) [4] [5] [6] [7] = none :=
  machte_new_stores_key_verbatim rejectMac testAead [1, 2, 3] [4] [5] [6] [7] rfl
